import Mathlib

/-!
Verification of the pyRevit batch-rename script (src/script.py).

The script renames every view named "Framing Elevation" that is placed on a
sheet.  We embed the document model the script consumes (sheets, viewports,
views keyed by element id), the discovery loop, and the full run as a pure
state machine producing a trace of UI / transaction events together with the
observable post-run view names.  Host Transaction / TransactionGroup
semantics (all-or-nothing, Assimilate commits, RollBack undoes the group)
follow the host API contract the script relies on.
-/

namespace ViewRename

/-- A view element of the host document: the only attribute the script reads
or writes is its mutable name. -/
structure View where
  name : String
  deriving DecidableEq, Repr

/-- A sheet element: the script only calls GetAllViewports, which yields the
element ids of the viewports placed on the sheet. -/
structure Sheet where
  viewports : List Int
  deriving DecidableEq, Repr

/-- The slice of the host document the script consumes: the collected sheets
(in collector order), the ViewId of each viewport element
(doc.GetElement(vp_id).ViewId), and element lookup for view ids
(doc.GetElement(view_id); none models a null element). -/
structure Document where
  sheets : List Sheet
  vpViewId : Int → Int
  getView : Int → Option View

/-- DB.ElementId.InvalidElementId. -/
def InvalidElementId : Int := -1

/-- Membership test for a key in the association list that embeds the Python
dict framing_elevation_views (insertion ordered). -/
def hasKey (m : List (Int × View)) (k : Int) : Bool :=
  m.any (fun p => p.1 == k)

/-- Body of the inner discovery loop for one viewport id: resolve the
ViewId, skip invalid or already-seen ids, then keep the element when it is
non-null and its name is exactly "Framing Elevation". -/
def processViewport (doc : Document) (acc : List (Int × View)) (vpId : Int) :
    List (Int × View) :=
  if doc.vpViewId vpId != InvalidElementId && !(hasKey acc (doc.vpViewId vpId)) then
    match doc.getView (doc.vpViewId vpId) with
    | some view =>
        if view.name == "Framing Elevation" then
          acc ++ [(doc.vpViewId vpId, view)]
        else acc
    | none => acc
  else acc

/-- Discovery loop body for one sheet: fold over its viewports (an empty
viewport list contributes nothing, matching the continue). -/
def processSheet (doc : Document) (acc : List (Int × View)) (s : Sheet) :
    List (Int × View) :=
  s.viewports.foldl (processViewport doc) acc

/-- The discovery phase: the association list embedding the dict
framing_elevation_views after the nested sheet/viewport loops. -/
def framingElevationViews (doc : Document) : List (Int × View) :=
  doc.sheets.foldl (processSheet doc) []

/-- Events observable during a run: modal alerts (message, title), the
base-name prompt, transaction operations, and script.exit. -/
inductive Event where
  | alert (msg title : String)
  | promptShown
  | txGroupStart
  | subTxStart
  | subTxCommit
  | txGroupRollback
  | txGroupAssimilate
  | exitScript
  deriving DecidableEq, Repr

/-- State of the rename loop: emitted events, the renames committed by the
sub-transactions so far (pending inside the open transaction group), the two
counters, and the failure witness (failing view and error text) if a
sub-transaction raised. -/
structure LoopResult where
  events : List Event
  renames : List (Int × String)
  renamedCount : Nat
  counter : Nat
  failure : Option (View × String)
  deriving Repr

/-- The rename loop of the script.  raises idx = some err models an
exception with text err raised inside the sub-transaction of the view at
0-based loop index idx; the sub-transaction of a raising iteration is
rolled back by its with-block, so its rename is never committed, the loop
stops and the failing view still has its discovery-time name. -/
def renameLoop (raises : Nat → Option String) (base : String) :
    List (Int × View) → Nat → LoopResult → LoopResult
  | [], _, st => st
  | (vid, v) :: rest, idx, st =>
    match raises idx with
    | some err =>
        { st with
          events := st.events ++ [Event.subTxStart],
          failure := some (v, err) }
    | none =>
        renameLoop raises base rest (idx + 1)
          { events := st.events ++ [Event.subTxStart, Event.subTxCommit],
            renames := st.renames ++ [(vid, base ++ " - " ++ toString st.counter)],
            renamedCount := st.renamedCount + 1,
            counter := st.counter + 1,
            failure := none }

/-- The names of the document views before the run. -/
def docNames (doc : Document) : Int → Option String :=
  fun i => (doc.getView i).map View.name

/-- Lookup of a committed rename by view element id. -/
def lookupRename (renames : List (Int × String)) (i : Int) : Option String :=
  (renames.find? (fun p => p.1 == i)).map Prod.snd

/-- Observable names after TransactionGroup.Assimilate: the committed
renames overlay the original names. -/
def applyRenames (doc : Document) (renames : List (Int × String)) :
    Int → Option String :=
  fun i =>
    match lookupRename renames i with
    | some n => some n
    | none => docNames doc i

/-- Result of a whole run: the event trace, the observable post-run name of
every view id, and the final values of renamed_count and counter (their
initial values on paths that exit before the loop). -/
structure RunResult where
  events : List Event
  finalNames : Int → Option String
  renamedCount : Nat
  counter : Nat

/-- Message of the empty-result alert. -/
def noViewsMsg : String :=
  "No \x27Framing Elevation\x27 views were found on any sheets."

/-- Message of the cancellation alert. -/
def cancelledMsg : String := "Operation cancelled. No views were renamed."

/-- Message of the mid-batch failure alert for a failing view and error. -/
def failMsg (viewName err : String) : String :=
  "Failed to rename view \x27" ++ viewName ++ "\x27.\nError: " ++ err

/-- Message of the success report. -/
def successMsg (n : Nat) : String :=
  "Successfully renamed " ++ toString n ++ " view(s)."

/-- Message of the zero-renames report branch. -/
def noneRenamedMsg : String := "No views were renamed."

/-- The whole script as a pure run: discovery, empty guard, prompt
(promptResult none models cancellation, the script also treats an empty
string as falsy), the rename loop inside the transaction group, and the
final report.  On a sub-transaction failure the script alerts, rolls the
group back (so no rename is observable) and exits; on completion it
assimilates the group and reports. -/
def runScript (doc : Document) (promptResult : Option String)
    (raises : Nat → Option String) : RunResult :=
  let views := framingElevationViews doc
  if views.isEmpty then
    { events := [Event.alert noViewsMsg "No Views Found", Event.exitScript],
      finalNames := docNames doc, renamedCount := 0, counter := 1 }
  else
    match promptResult with
    | none =>
        { events := [Event.promptShown,
                     Event.alert cancelledMsg "Cancelled", Event.exitScript],
          finalNames := docNames doc, renamedCount := 0, counter := 1 }
    | some base =>
        if base = "" then
          { events := [Event.promptShown,
                       Event.alert cancelledMsg "Cancelled", Event.exitScript],
            finalNames := docNames doc, renamedCount := 0, counter := 1 }
        else
          let res := renameLoop raises base views 0
            { events := [], renames := [], renamedCount := 0, counter := 1,
              failure := none }
          match res.failure with
          | some (v, err) =>
              { events := [Event.promptShown, Event.txGroupStart] ++ res.events
                  ++ [Event.alert (failMsg v.name err) "Error",
                      Event.txGroupRollback, Event.exitScript],
                finalNames := docNames doc,
                renamedCount := res.renamedCount, counter := res.counter }
          | none =>
              { events := [Event.promptShown, Event.txGroupStart] ++ res.events
                  ++ [Event.txGroupAssimilate,
                      if res.renamedCount > 0 then
                        Event.alert (successMsg res.renamedCount) "Process Complete"
                      else
                        Event.alert noneRenamedMsg "Process Complete"],
                finalNames := applyRenames doc res.renames,
                renamedCount := res.renamedCount, counter := res.counter }

/-- Is an event a modal alert notification. -/
def isAlert : Event → Bool
  | Event.alert _ _ => true
  | _ => false

/-- Is an event a transaction operation (group or sub-transaction). -/
def isTxEvent : Event → Bool
  | Event.txGroupStart => true
  | Event.subTxStart => true
  | Event.subTxCommit => true
  | Event.txGroupRollback => true
  | Event.txGroupAssimilate => true
  | _ => false

/-- Number of alert notifications in a trace. -/
def alertCount (es : List Event) : Nat := (es.filter isAlert).length

/-- The element-id keys of the discovered mapping, in iteration order. -/
def keys (m : List (Int × View)) : List Int := m.map Prod.fst

theorem hasKey_iff_mem_keys (m : List (Int × View)) (k : Int) :
    hasKey m k = true ↔ k ∈ keys m := by
  simp [hasKey, keys]

/-- Processing one viewport either leaves the accumulator unchanged or
appends exactly the resolved view, which is non-null, exactly named, valid
and not yet present. -/
theorem processViewport_shape (doc : Document) (acc : List (Int × View))
    (vp : Int) :
    processViewport doc acc vp = acc ∨
      ∃ v : View, doc.getView (doc.vpViewId vp) = some v ∧
        v.name = "Framing Elevation" ∧ doc.vpViewId vp ≠ InvalidElementId ∧
        hasKey acc (doc.vpViewId vp) = false ∧
        processViewport doc acc vp = acc ++ [(doc.vpViewId vp, v)] := by
  unfold processViewport
  by_cases hcond :
      (doc.vpViewId vp != InvalidElementId && !hasKey acc (doc.vpViewId vp)) = true
  · rw [if_pos hcond]
    rw [Bool.and_eq_true, bne_iff_ne, Bool.not_eq_true'] at hcond
    cases hgv : doc.getView (doc.vpViewId vp) with
    | none => exact Or.inl rfl
    | some v =>
        dsimp only
        by_cases hname : (v.name == "Framing Elevation") = true
        · rw [if_pos hname]
          exact Or.inr ⟨v, rfl, by simpa using hname, hcond.1, hcond.2, rfl⟩
        · rw [if_neg hname]
          exact Or.inl rfl
  · rw [if_neg hcond]
    exact Or.inl rfl

theorem mem_processViewport {doc : Document} {acc : List (Int × View)}
    {vp : Int} {p : Int × View} (h : p ∈ processViewport doc acc vp) :
    p ∈ acc ∨ (doc.vpViewId vp = p.1 ∧ doc.getView p.1 = some p.2 ∧
      p.2.name = "Framing Elevation") := by
  rcases processViewport_shape doc acc vp with heq | ⟨v, hgv, hname, _, _, heq⟩
  · rw [heq] at h
    exact Or.inl h
  · rw [heq, List.mem_append, List.mem_singleton] at h
    rcases h with h | h
    · exact Or.inl h
    · subst h
      exact Or.inr ⟨rfl, hgv, hname⟩

theorem mem_foldl_processViewport {doc : Document} {p : Int × View} :
    ∀ (l : List Int) (acc : List (Int × View)),
      p ∈ l.foldl (processViewport doc) acc →
      p ∈ acc ∨ ∃ vp ∈ l, doc.vpViewId vp = p.1 ∧
        doc.getView p.1 = some p.2 ∧ p.2.name = "Framing Elevation"
  | [], acc, h => Or.inl h
  | vp :: l, acc, h => by
      rcases mem_foldl_processViewport l (processViewport doc acc vp) h with
        h1 | ⟨vp1, hvp1, hprop⟩
      · rcases mem_processViewport h1 with h2 | hprop
        · exact Or.inl h2
        · exact Or.inr ⟨vp, List.mem_cons_self vp l, hprop⟩
      · exact Or.inr ⟨vp1, List.mem_cons_of_mem vp hvp1, hprop⟩

theorem mem_foldl_processSheet {doc : Document} {p : Int × View} :
    ∀ (ss : List Sheet) (acc : List (Int × View)),
      p ∈ ss.foldl (processSheet doc) acc →
      p ∈ acc ∨ ∃ s ∈ ss, ∃ vp ∈ s.viewports, doc.vpViewId vp = p.1 ∧
        doc.getView p.1 = some p.2 ∧ p.2.name = "Framing Elevation"
  | [], acc, h => Or.inl h
  | s :: ss, acc, h => by
      rcases mem_foldl_processSheet ss (processSheet doc acc s) h with
        h1 | ⟨s1, hs1, hprop⟩
      · rcases mem_foldl_processViewport s.viewports acc h1 with h2 | ⟨vp, hvp, hprop⟩
        · exact Or.inl h2
        · exact Or.inr ⟨s, List.mem_cons_self s ss, vp, hvp, hprop⟩
      · exact Or.inr ⟨s1, List.mem_cons_of_mem s hs1, hprop⟩

/-- Every discovered entry resolves via the document, is exactly named
"Framing Elevation", and is referenced by a viewport on some sheet. -/
theorem mem_framingElevationViews {doc : Document} {p : Int × View}
    (h : p ∈ framingElevationViews doc) :
    doc.getView p.1 = some p.2 ∧ p.2.name = "Framing Elevation" ∧
      ∃ s ∈ doc.sheets, ∃ vp ∈ s.viewports, doc.vpViewId vp = p.1 := by
  rcases mem_foldl_processSheet doc.sheets [] h with h1 | ⟨s, hs, vp, hvp, h1, h2, h3⟩
  · simp at h1
  · exact ⟨h2, h3, s, hs, vp, hvp, h1⟩

theorem keys_nodup_processViewport {doc : Document} {acc : List (Int × View)}
    (vp : Int) (h : (keys acc).Nodup) :
    (keys (processViewport doc acc vp)).Nodup := by
  rcases processViewport_shape doc acc vp with heq | ⟨v, _, _, _, hkey, heq⟩
  · rw [heq]
    exact h
  · rw [heq]
    have hnot : doc.vpViewId vp ∉ keys acc := by
      rw [← hasKey_iff_mem_keys, hkey]
      simp
    simp only [keys, List.map_append, List.map_cons, List.map_nil]
    rw [List.nodup_append]
    refine ⟨h, List.nodup_singleton _, ?_⟩
    intro a ha hb
    rw [List.mem_singleton] at hb
    subst hb
    exact hnot ha

theorem keys_nodup_foldl_processViewport {doc : Document} :
    ∀ (l : List Int) (acc : List (Int × View)), (keys acc).Nodup →
      (keys (l.foldl (processViewport doc) acc)).Nodup
  | [], _, h => h
  | vp :: l, acc, h =>
      keys_nodup_foldl_processViewport l (processViewport doc acc vp)
        (keys_nodup_processViewport vp h)

theorem keys_nodup_foldl_processSheet {doc : Document} :
    ∀ (ss : List Sheet) (acc : List (Int × View)), (keys acc).Nodup →
      (keys (ss.foldl (processSheet doc) acc)).Nodup
  | [], _, h => h
  | s :: ss, acc, h =>
      keys_nodup_foldl_processSheet ss (processSheet doc acc s)
        (keys_nodup_foldl_processViewport s.viewports acc h)

/-- The discovered mapping never repeats an element id. -/
theorem framingElevationViews_keys_nodup (doc : Document) :
    (keys (framingElevationViews doc)).Nodup :=
  keys_nodup_foldl_processSheet doc.sheets [] List.nodup_nil

theorem keys_mono_processViewport {doc : Document} {acc : List (Int × View)}
    {vp : Int} {k : Int} (h : k ∈ keys acc) :
    k ∈ keys (processViewport doc acc vp) := by
  rcases processViewport_shape doc acc vp with heq | ⟨v, _, _, _, _, heq⟩ <;>
    rw [heq]
  · exact h
  · simp only [keys, List.map_append]
    exact List.mem_append_left _ h

theorem mem_keys_processViewport_self {doc : Document} {acc : List (Int × View)}
    {vp : Int} {v : View} (hvalid : doc.vpViewId vp ≠ InvalidElementId)
    (hv : doc.getView (doc.vpViewId vp) = some v)
    (hname : v.name = "Framing Elevation") :
    doc.vpViewId vp ∈ keys (processViewport doc acc vp) := by
  by_cases hk : hasKey acc (doc.vpViewId vp) = true
  · exact keys_mono_processViewport ((hasKey_iff_mem_keys _ _).1 hk)
  · have hk' : hasKey acc (doc.vpViewId vp) = false := by simpa using hk
    have hcond :
        (doc.vpViewId vp != InvalidElementId && !hasKey acc (doc.vpViewId vp)) = true := by
      rw [Bool.and_eq_true, bne_iff_ne, Bool.not_eq_true']
      exact ⟨hvalid, hk'⟩
    unfold processViewport
    rw [if_pos hcond, hv]
    dsimp only
    rw [if_pos (by simpa using hname)]
    simp [keys]

theorem keys_mono_foldl_processViewport {doc : Document} {k : Int} :
    ∀ (l : List Int) (acc : List (Int × View)), k ∈ keys acc →
      k ∈ keys (l.foldl (processViewport doc) acc)
  | [], _, h => h
  | _ :: l, _, h =>
      keys_mono_foldl_processViewport l _ (keys_mono_processViewport h)

theorem mem_keys_foldl_processViewport {doc : Document} {vp : Int} {v : View}
    (hvalid : doc.vpViewId vp ≠ InvalidElementId)
    (hv : doc.getView (doc.vpViewId vp) = some v)
    (hname : v.name = "Framing Elevation") :
    ∀ (l : List Int) (acc : List (Int × View)), vp ∈ l →
      doc.vpViewId vp ∈ keys (l.foldl (processViewport doc) acc)
  | vp0 :: l, acc, hmem => by
      rcases List.mem_cons.mp hmem with heq | hmem
      · subst heq
        exact keys_mono_foldl_processViewport l _
          (mem_keys_processViewport_self hvalid hv hname)
      · exact mem_keys_foldl_processViewport hvalid hv hname l _ hmem

theorem keys_mono_foldl_processSheet {doc : Document} {k : Int} :
    ∀ (ss : List Sheet) (acc : List (Int × View)), k ∈ keys acc →
      k ∈ keys (ss.foldl (processSheet doc) acc)
  | [], _, h => h
  | s :: ss, _, h =>
      keys_mono_foldl_processSheet ss _
        (keys_mono_foldl_processViewport s.viewports _ h)

theorem mem_keys_foldl_processSheet {doc : Document} {s : Sheet} {vp : Int}
    {v : View} (hvp : vp ∈ s.viewports)
    (hvalid : doc.vpViewId vp ≠ InvalidElementId)
    (hv : doc.getView (doc.vpViewId vp) = some v)
    (hname : v.name = "Framing Elevation") :
    ∀ (ss : List Sheet) (acc : List (Int × View)), s ∈ ss →
      doc.vpViewId vp ∈ keys (ss.foldl (processSheet doc) acc)
  | s0 :: ss, acc, hmem => by
      rcases List.mem_cons.mp hmem with heq | hmem
      · subst heq
        exact keys_mono_foldl_processSheet ss _
          (mem_keys_foldl_processViewport hvalid hv hname s.viewports acc hvp)
      · exact mem_keys_foldl_processSheet hvp hvalid hv hname ss _ hmem

/-- Decimal digit characters of a natural number, most significant first;
reference rendering used to reason about the counter suffix produced by the
Python format call (which prints the counter in decimal, no leading
zeros). -/
def digitList (n : Nat) : List Char :=
  if n < 10 then [Nat.digitChar n]
  else digitList (n / 10) ++ [Nat.digitChar (n % 10)]
decreasing_by exact Nat.div_lt_self (by omega) (by omega)

/-- Numeric value of a decimal digit character. -/
def charVal (c : Char) : Nat := c.toNat - 48

/-- Value of a digit-character list read back as a decimal number. -/
def valOfChars (l : List Char) : Nat :=
  l.foldl (fun a c => 10 * a + charVal c) 0

theorem charVal_digitChar : ∀ d < 10, charVal (Nat.digitChar d) = d := by decide

theorem valOfChars_append (l : List Char) (c : Char) :
    valOfChars (l ++ [c]) = 10 * valOfChars l + charVal c := by
  simp [valOfChars, List.foldl_append]

theorem val_digitList (n : Nat) : valOfChars (digitList n) = n := by
  induction n using Nat.strong_induction_on with
  | _ n ih =>
    by_cases h : n < 10
    · rw [digitList, if_pos h]
      simp [valOfChars, charVal_digitChar n h]
    · rw [digitList, if_neg h]
      rw [valOfChars_append]
      rw [ih (n / 10) (Nat.div_lt_self (by omega) (by omega))]
      rw [charVal_digitChar (n % 10) (Nat.mod_lt _ (by omega))]
      omega

theorem toDigitsCore_eq_digitList :
    ∀ (fuel n : Nat) (acc : List Char), n < 10 ^ (fuel + 1) →
      Nat.toDigitsCore 10 (fuel + 1) n acc = digitList n ++ acc := by
  intro fuel
  induction fuel with
  | zero =>
      intro n acc h
      have hn : n < 10 := by simpa using h
      have hdiv : n / 10 = 0 := Nat.div_eq_of_lt hn
      simp only [Nat.toDigitsCore, hdiv, if_pos]
      rw [digitList, if_pos hn, Nat.mod_eq_of_lt hn]
      simp
  | succ fuel ih =>
      intro n acc h
      by_cases hn : n < 10
      · have hdiv : n / 10 = 0 := Nat.div_eq_of_lt hn
        simp only [Nat.toDigitsCore, hdiv, if_pos]
        rw [digitList, if_pos hn, Nat.mod_eq_of_lt hn]
        simp
      · have hdiv : ¬ n / 10 = 0 := by
          intro h0
          exact hn (by omega)
        show (if n / 10 = 0 then Nat.digitChar (n % 10) :: acc
          else Nat.toDigitsCore 10 (fuel + 1) (n / 10)
            (Nat.digitChar (n % 10) :: acc)) = digitList n ++ acc
        rw [if_neg hdiv]
        have hlt : n / 10 < 10 ^ (fuel + 1) := by
          rw [Nat.div_lt_iff_lt_mul (by omega)]
          calc n < 10 ^ (fuel + 1 + 1) := h
          _ = 10 ^ (fuel + 1) * 10 := by rw [Nat.pow_succ]
        rw [ih (n / 10) (Nat.digitChar (n % 10) :: acc) hlt]
        conv_rhs => rw [digitList]
        rw [if_neg hn]
        simp

theorem toDigits_eq_digitList (n : Nat) : Nat.toDigits 10 n = digitList n := by
  have h : n < 10 ^ (n + 1) :=
    lt_of_lt_of_le (Nat.lt_pow_self (by omega) n)
      (Nat.pow_le_pow_right (by omega) (by omega))
  have := toDigitsCore_eq_digitList n n [] h
  simpa [Nat.toDigits] using this

theorem nat_repr_injective {m n : Nat} (h : Nat.repr m = Nat.repr n) :
    m = n := by
  have hdata := congrArg String.data h
  simp only [Nat.repr, List.asString, toDigits_eq_digitList] at hdata
  have := congrArg valOfChars hdata
  rwa [val_digitList, val_digitList] at this

theorem toString_nat_injective {m n : Nat} (h : toString m = toString n) :
    m = n :=
  nat_repr_injective h

/-- The generated names are pairwise distinct across distinct counters. -/
theorem generatedName_injective (base : String) {c d : Nat}
    (h : base ++ " - " ++ toString c = base ++ " - " ++ toString d) :
    c = d := by
  have hdata := congrArg String.data h
  simp only [String.data_append] at hdata
  have := List.append_cancel_left hdata
  exact toString_nat_injective (by
    apply congrArg String.mk at this
    simpa using this)

/-- A valid, exactly named view referenced by some viewport on some sheet is
a key of the discovered mapping. -/
theorem mem_keys_framingElevationViews {doc : Document} {s : Sheet} {vp : Int}
    {vid : Int} {v : View} (hs : s ∈ doc.sheets) (hvp : vp ∈ s.viewports)
    (hid : doc.vpViewId vp = vid) (hvalid : vid ≠ InvalidElementId)
    (hv : doc.getView vid = some v) (hname : v.name = "Framing Elevation") :
    vid ∈ keys (framingElevationViews doc) := by
  subst hid
  exact mem_keys_foldl_processSheet hvp hvalid hv hname doc.sheets [] hs

/-- Events emitted by n successful rename sub-transactions. -/
def successEvents : Nat → List Event
  | 0 => []
  | n + 1 => [Event.subTxStart, Event.subTxCommit] ++ successEvents n

/-- The renames a fully successful loop prefix commits: the i-th view of
the list gets the counter c + i. -/
def expectedRenames (base : String) : Nat → List (Int × View) → List (Int × String)
  | _, [] => []
  | c, (vid, _) :: rest =>
      (vid, base ++ " - " ++ toString c) :: expectedRenames base (c + 1) rest

theorem renameLoop_success (raises : Nat → Option String) (base : String) :
    ∀ (vs : List (Int × View)) (idx : Nat) (st : LoopResult),
      (∀ i, i < vs.length → raises (idx + i) = none) → st.failure = none →
      renameLoop raises base vs idx st =
        { events := st.events ++ successEvents vs.length,
          renames := st.renames ++ expectedRenames base st.counter vs,
          renamedCount := st.renamedCount + vs.length,
          counter := st.counter + vs.length,
          failure := none }
  | [], _, st, _, hfail => by
      cases st
      simp_all [renameLoop, successEvents, expectedRenames]
  | (vid, v) :: rest, idx, st, hr, _ => by
      have h0 : raises idx = none := by simpa using hr 0 (by simp)
      have hr' : ∀ i, i < rest.length → raises (idx + 1 + i) = none := by
        intro i hi
        have := hr (i + 1) (by simpa using Nat.succ_lt_succ hi)
        simpa [Nat.add_assoc, Nat.add_comm 1 i] using this
      simp only [renameLoop, h0]
      rw [renameLoop_success raises base rest (idx + 1) _ hr' rfl]
      simp [successEvents, expectedRenames, List.append_assoc]
      omega

theorem renameLoop_failure (raises : Nat → Option String) (base : String) :
    ∀ (vs : List (Int × View)) (idx : Nat) (st : LoopResult) (j : Nat)
      (hj : j < vs.length) (err : String),
      (∀ i, i < j → raises (idx + i) = none) → raises (idx + j) = some err →
      renameLoop raises base vs idx st =
        { events := st.events ++ successEvents j ++ [Event.subTxStart],
          renames := st.renames ++ expectedRenames base st.counter (vs.take j),
          renamedCount := st.renamedCount + j,
          counter := st.counter + j,
          failure := some ((vs.get ⟨j, hj⟩).2, err) }
  | [], _, _, j, hj, _, _, _ => absurd hj (by simp)
  | (vid, v) :: rest, idx, st, 0, hj, err, _, hraise => by
      have h0 : raises idx = some err := by simpa using hraise
      cases st
      simp_all [renameLoop, successEvents, expectedRenames]
  | (vid, v) :: rest, idx, st, k + 1, hj, err, hfirst, hraise => by
      have h0 : raises idx = none := by simpa using hfirst 0 (by omega)
      have hfirst' : ∀ i, i < k → raises (idx + 1 + i) = none := by
        intro i hi
        have := hfirst (i + 1) (by omega)
        simpa [Nat.add_assoc, Nat.add_comm 1 i] using this
      have hraise' : raises (idx + 1 + k) = some err := by
        have : idx + 1 + k = idx + (k + 1) := by omega
        rw [this]
        exact hraise
      have hk : k < rest.length := by simpa using Nat.lt_of_succ_lt_succ hj
      simp only [renameLoop, h0]
      rw [renameLoop_failure raises base rest (idx + 1) _ k hk err hfirst' hraise']
      simp [successEvents, expectedRenames, List.append_assoc]
      omega

theorem alertCount_append (a b : List Event) :
    alertCount (a ++ b) = alertCount a + alertCount b := by
  simp [alertCount, List.filter_append]

theorem alertCount_successEvents (n : Nat) :
    alertCount (successEvents n) = 0 := by
  induction n with
  | zero => rfl
  | succ n ih =>
      rw [successEvents, alertCount_append, ih]
      rfl

theorem renameLoop_counter_inv (raises : Nat → Option String) (base : String) :
    ∀ (vs : List (Int × View)) (idx : Nat) (st : LoopResult),
      st.counter = st.renamedCount + 1 →
      (renameLoop raises base vs idx st).counter =
        (renameLoop raises base vs idx st).renamedCount + 1
  | [], _, _, h => h
  | (vid, v) :: rest, idx, st, h => by
      cases h0 : raises idx with
      | some err => simpa [renameLoop, h0] using h
      | none =>
          simp only [renameLoop, h0]
          exact renameLoop_counter_inv raises base rest (idx + 1) _ (by simp [h])

theorem isEmpty_false_of_ne_nil {l : List (Int × View)} (h : l ≠ []) :
    l.isEmpty = false := by
  cases hl : l
  · exact absurd hl h
  · rfl

theorem runScript_noViews (doc : Document) (p : Option String)
    (raises : Nat → Option String) (h : framingElevationViews doc = []) :
    runScript doc p raises =
      { events := [Event.alert noViewsMsg "No Views Found", Event.exitScript],
        finalNames := docNames doc, renamedCount := 0, counter := 1 } := by
  simp [runScript, h]

theorem runScript_cancelled (doc : Document) (p : Option String)
    (raises : Nat → Option String) (hne : framingElevationViews doc ≠ [])
    (hp : p = none ∨ p = some "") :
    runScript doc p raises =
      { events := [Event.promptShown, Event.alert cancelledMsg "Cancelled",
                   Event.exitScript],
        finalNames := docNames doc, renamedCount := 0, counter := 1 } := by
  have hemp := isEmpty_false_of_ne_nil hne
  rcases hp with rfl | rfl <;> simp [runScript, hemp]

theorem runScript_success (doc : Document) (base : String)
    (raises : Nat → Option String) (hne : framingElevationViews doc ≠ [])
    (hbase : base ≠ "")
    (hall : ∀ i, i < (framingElevationViews doc).length → raises i = none) :
    runScript doc (some base) raises =
      { events := [Event.promptShown, Event.txGroupStart] ++
          successEvents (framingElevationViews doc).length ++
          [Event.txGroupAssimilate,
           Event.alert (successMsg (framingElevationViews doc).length)
             "Process Complete"],
        finalNames := applyRenames doc
          (expectedRenames base 1 (framingElevationViews doc)),
        renamedCount := (framingElevationViews doc).length,
        counter := 1 + (framingElevationViews doc).length } := by
  have hemp := isEmpty_false_of_ne_nil hne
  have hK : 0 < (framingElevationViews doc).length := List.length_pos.mpr hne
  have hloop := renameLoop_success raises base (framingElevationViews doc) 0
    { events := [], renames := [], renamedCount := 0, counter := 1,
      failure := none }
    (by intro i hi; simpa using hall i hi) rfl
  simp [runScript, hemp, hbase, hloop, hK, Nat.pos_iff_ne_zero.mp hK]

theorem runScript_failureAt (doc : Document) (base err : String)
    (raises : Nat → Option String) (j : Nat) (hbase : base ≠ "")
    (hj : j < (framingElevationViews doc).length)
    (hfirst : ∀ i, i < j → raises i = none) (hraise : raises j = some err) :
    runScript doc (some base) raises =
      { events := [Event.promptShown, Event.txGroupStart] ++ successEvents j ++
          [Event.subTxStart,
           Event.alert
             (failMsg (((framingElevationViews doc).get ⟨j, hj⟩).2.name) err)
             "Error",
           Event.txGroupRollback, Event.exitScript],
        finalNames := docNames doc,
        renamedCount := j, counter := 1 + j } := by
  have hne : framingElevationViews doc ≠ [] := by
    intro h
    rw [h] at hj
    exact absurd hj (by simp)
  have hemp := isEmpty_false_of_ne_nil hne
  have hloop := renameLoop_failure raises base (framingElevationViews doc) 0
    { events := [], renames := [], renamedCount := 0, counter := 1,
      failure := none }
    j hj err (by intro i hi; simpa using hfirst i hi) (by simpa using hraise)
  simp [runScript, hemp, hbase, hloop]

theorem successMsg_ne_noneRenamedMsg (n : Nat) : successMsg n ≠ noneRenamedMsg := by
  intro h
  have hlen := congrArg String.length h
  have h2 : ("No views were renamed." : String).length = 22 := by decide
  have h3 : (" view(s)." : String).length = 9 := by decide
  have h4 : ("Successfully renamed " : String).length = 21 := by decide
  simp [successMsg, noneRenamedMsg, String.length_append, h2, h3, h4] at hlen
  omega

theorem exists_first_fail (raises : Nat → Option String) (K : Nat)
    (h : ¬ ∀ i, i < K → raises i = none) :
    ∃ j, j < K ∧ (∀ i, i < j → raises i = none) ∧ ∃ err, raises j = some err := by
  push_neg at h
  obtain ⟨i0, hi0, hne0⟩ := h
  have hex : ∃ i, i < K ∧ raises i ≠ none := ⟨i0, hi0, hne0⟩
  refine ⟨Nat.find hex, (Nat.find_spec hex).1, ?_, ?_⟩
  · intro i hij
    by_contra hne2
    have hiK : i < K := lt_trans hij (Nat.find_spec hex).1
    exact Nat.find_min hex hij ⟨hiK, hne2⟩
  · exact Option.ne_none_iff_exists'.mp (Nat.find_spec hex).2

theorem lookupRename_expectedRenames (base : String) :
    ∀ (vs : List (Int × View)) (c : Nat) (i : Nat) (hi : i < vs.length),
      (keys vs).Nodup →
      lookupRename (expectedRenames base c vs) ((vs.get ⟨i, hi⟩).1) =
        some (base ++ " - " ++ toString (c + i))
  | [], _, i, hi, _ => absurd hi (by simp)
  | (vid, v) :: rest, c, 0, hi, hnd => by
      simp [lookupRename, expectedRenames, List.find?]
  | (vid, v) :: rest, c, i + 1, hi, hnd => by
      have hi' : i < rest.length := by simpa using Nat.lt_of_succ_lt_succ hi
      have hkeys : keys ((vid, v) :: rest) = vid :: keys rest := by simp [keys]
      rw [hkeys, List.nodup_cons] at hnd
      have hkey : ((rest.get ⟨i, hi'⟩).1) ∈ keys rest := by
        simp only [keys, List.mem_map]
        exact ⟨rest.get ⟨i, hi'⟩, List.get_mem rest i hi', rfl⟩
      have hne : (vid == (rest.get ⟨i, hi'⟩).1) = false := by
        rw [beq_eq_false_iff_ne]
        intro h
        rw [← h] at hkey
        exact hnd.1 hkey
      simp only [List.get_eq_getElem] at hne
      have harith : c + 1 + i = c + (i + 1) := by omega
      have hrec := lookupRename_expectedRenames base rest (c + 1) i hi' hnd.2
      rw [harith] at hrec
      simpa [lookupRename, expectedRenames, List.find?, hne] using hrec

/-- State-passing read of the sheet collection (the
FilteredElementCollector query): value plus resulting document state. -/
def readSheets (d : Document) : List Sheet × Document := (d.sheets, d)

/-- State-passing read of a viewport element and its ViewId. -/
def readVpViewId (vp : Int) (d : Document) : Int × Document := (d.vpViewId vp, d)

/-- State-passing read of doc.GetElement on a view id. -/
def readView (i : Int) (d : Document) : Option View × Document := (d.getView i, d)

/-- State-passing form of the inner discovery step, threading the document
through every host read so that mutation would be observable. -/
def processViewportM (acc : List (Int × View)) (vp : Int) (d : Document) :
    List (Int × View) × Document :=
  let r1 := readVpViewId vp d
  if r1.1 != InvalidElementId && !(hasKey acc r1.1) then
    let r2 := readView r1.1 r1.2
    match r2.1 with
    | some view =>
        if view.name == "Framing Elevation" then (acc ++ [(r1.1, view)], r2.2)
        else (acc, r2.2)
    | none => (acc, r2.2)
  else (acc, r1.2)

/-- State-passing fold over the viewports of one sheet. -/
def foldViewportsM : List Int → List (Int × View) → Document →
    List (Int × View) × Document
  | [], acc, d => (acc, d)
  | vp :: l, acc, d =>
      let r := processViewportM acc vp d
      foldViewportsM l r.1 r.2

/-- State-passing fold over all sheets. -/
def foldSheetsM : List Sheet → List (Int × View) → Document →
    List (Int × View) × Document
  | [], acc, d => (acc, d)
  | s :: ss, acc, d =>
      let r := foldViewportsM s.viewports acc d
      foldSheetsM ss r.1 r.2

/-- The discovery phase as a state-passing computation on the document. -/
def discoverM (d : Document) : List (Int × View) × Document :=
  let r0 := readSheets d
  foldSheetsM r0.1 [] r0.2

theorem processViewportM_eq (acc : List (Int × View)) (vp : Int)
    (d : Document) : processViewportM acc vp d = (processViewport d acc vp, d) := by
  unfold processViewportM processViewport readVpViewId readView
  dsimp only
  by_cases hc : (d.vpViewId vp != InvalidElementId && !hasKey acc (d.vpViewId vp)) = true
  · rw [if_pos hc, if_pos hc]
    cases d.getView (d.vpViewId vp) with
    | none => rfl
    | some v =>
        dsimp only
        by_cases hn : (v.name == "Framing Elevation") = true
        · rw [if_pos hn, if_pos hn]
        · rw [if_neg hn, if_neg hn]
  · rw [if_neg hc, if_neg hc]

theorem foldViewportsM_eq (d : Document) :
    ∀ (l : List Int) (acc : List (Int × View)),
      foldViewportsM l acc d = (l.foldl (processViewport d) acc, d)
  | [], _ => rfl
  | vp :: l, acc => by
      rw [foldViewportsM]
      simp only [processViewportM_eq]
      exact foldViewportsM_eq d l (processViewport d acc vp)

theorem foldSheetsM_eq (d : Document) :
    ∀ (ss : List Sheet) (acc : List (Int × View)),
      foldSheetsM ss acc d = (ss.foldl (processSheet d) acc, d)
  | [], _ => rfl
  | s :: ss, acc => by
      rw [foldSheetsM]
      simp only [foldViewportsM_eq]
      exact foldSheetsM_eq d ss (processSheet d acc s)

theorem discoverM_eq (d : Document) :
    discoverM d = (framingElevationViews d, d) :=
  foldSheetsM_eq d d.sheets []

theorem alert_not_mem_successEvents (msg title : String) :
    ∀ n : Nat, Event.alert msg title ∉ successEvents n
  | 0 => by simp [successEvents]
  | n + 1 => by
      simp only [successEvents, List.mem_append]
      rintro (h | h)
      · simp at h
      · exact alert_not_mem_successEvents msg title n h

/-- Concrete document used by the witnesses, following the scenario of the
spec: sheet A places matching view 10 and a plan view 20; sheet B places
view 10 a second time and matching view 11; sheet C has no viewports. -/
def sampleFE : View := ⟨"Framing Elevation"⟩

/-- A non-matching view placed on a sheet. -/
def samplePlan : View := ⟨"Plan"⟩

/-- The witness document for the scenario above. -/
def sampleDoc : Document where
  sheets := [⟨[0, 1]⟩, ⟨[2, 3]⟩, ⟨[]⟩]
  vpViewId := fun vp =>
    if vp = 0 then 10 else if vp = 1 then 20
    else if vp = 2 then 10 else if vp = 3 then 11 else -1
  getView := fun i =>
    if i = 10 then some sampleFE else if i = 11 then some sampleFE
    else if i = 20 then some samplePlan else none

/-- A document with no sheets at all. -/
def emptyDoc : Document where
  sheets := []
  vpViewId := fun _ => -1
  getView := fun _ => none

/-- Failure oracle raising on the second rename only. -/
def sampleRaisesAt1 : Nat → Option String :=
  fun i => if i = 1 then some "boom" else none

/-- Failure oracle that never raises. -/
def sampleNoRaises : Nat → Option String := fun _ => none

/-- C3: every view in the mapping produced by discovery has name exactly
"Framing Elevation", resolves through the document at its key, and is
referenced by a viewport on some sheet; no differently named view is ever
included. -/
theorem C3_filter_exact (doc : Document) (vid : Int) (v : View)
    (h : (vid, v) ∈ framingElevationViews doc) :
    v.name = "Framing Elevation" ∧ doc.getView vid = some v ∧
      ∃ s ∈ doc.sheets, ∃ vp ∈ s.viewports, doc.vpViewId vp = vid := by
  have := mem_framingElevationViews h
  exact ⟨this.2.1, this.1, this.2.2⟩

theorem C3_filter_exact_witness :
    (10, sampleFE) ∈ framingElevationViews sampleDoc ∧
      (sampleFE.name = "Framing Elevation" ∧
        sampleDoc.getView 10 = some sampleFE ∧
        ∃ s ∈ sampleDoc.sheets, ∃ vp ∈ s.viewports,
          sampleDoc.vpViewId vp = 10) :=
  ⟨by decide, C3_filter_exact sampleDoc 10 sampleFE (by decide)⟩

/-- C4: a valid view with the exact target name that is referenced by a
viewport on a sheet — including a view placed several times — appears in
the discovered mapping exactly once, keyed by its element id and carrying
its view element. -/
theorem C4_dedup_unique (doc : Document) (vid : Int) (v : View) (s : Sheet)
    (vp : Int) (hs : s ∈ doc.sheets) (hvp : vp ∈ s.viewports)
    (hid : doc.vpViewId vp = vid) (hvalid : vid ≠ InvalidElementId)
    (hv : doc.getView vid = some v) (hname : v.name = "Framing Elevation") :
    (keys (framingElevationViews doc)).count vid = 1 ∧
      (vid, v) ∈ framingElevationViews doc := by
  have hmem := mem_keys_framingElevationViews hs hvp hid hvalid hv hname
  refine ⟨List.count_eq_one_of_mem (framingElevationViews_keys_nodup doc) hmem, ?_⟩
  simp only [keys, List.mem_map] at hmem
  obtain ⟨p, hp, hpk⟩ := hmem
  have h2 := (mem_framingElevationViews hp).1
  rw [hpk, hv] at h2
  obtain ⟨pa, pb⟩ := p
  simp only at hpk h2
  subst hpk
  rw [Option.some.injEq] at h2
  rw [h2]
  exact hp

theorem C4_dedup_unique_witness :
    ((⟨[0, 1]⟩ : Sheet) ∈ sampleDoc.sheets ∧ (0 : Int) ∈ Sheet.viewports ⟨[0, 1]⟩ ∧
      sampleDoc.vpViewId 0 = 10 ∧ (10 : Int) ≠ InvalidElementId ∧
      sampleDoc.getView 10 = some sampleFE ∧
      sampleFE.name = "Framing Elevation") ∧
    ((keys (framingElevationViews sampleDoc)).count 10 = 1 ∧
      (10, sampleFE) ∈ framingElevationViews sampleDoc) :=
  ⟨⟨by decide, by decide, by decide, by decide, by decide, by decide⟩,
   C4_dedup_unique sampleDoc 10 sampleFE ⟨[0, 1]⟩ 0 (by decide) (by decide)
     (by decide) (by decide) (by decide) (by decide)⟩

/-- C5: when discovery finds nothing, the run shows no prompt, opens no
transaction, shows exactly one alert (the no-views notification), mutates
nothing, and exits. -/
theorem C5_empty_guard (doc : Document) (p : Option String)
    (raises : Nat → Option String) (h : framingElevationViews doc = []) :
    (runScript doc p raises).events =
        [Event.alert noViewsMsg "No Views Found", Event.exitScript] ∧
      Event.promptShown ∉ (runScript doc p raises).events ∧
      (∀ e ∈ (runScript doc p raises).events, isTxEvent e = false) ∧
      alertCount (runScript doc p raises).events = 1 ∧
      (runScript doc p raises).finalNames = docNames doc := by
  rw [runScript_noViews doc p raises h]
  refine ⟨rfl, by simp, ?_, rfl, rfl⟩
  intro e he
  simp only [List.mem_cons, List.not_mem_nil, or_false] at he
  rcases he with rfl | rfl <;> rfl

theorem C5_empty_guard_witness :
    framingElevationViews emptyDoc = [] ∧
      ((runScript emptyDoc (some "X") sampleNoRaises).events =
          [Event.alert noViewsMsg "No Views Found", Event.exitScript] ∧
        Event.promptShown ∉ (runScript emptyDoc (some "X") sampleNoRaises).events ∧
        (∀ e ∈ (runScript emptyDoc (some "X") sampleNoRaises).events,
          isTxEvent e = false) ∧
        alertCount (runScript emptyDoc (some "X") sampleNoRaises).events = 1 ∧
        (runScript emptyDoc (some "X") sampleNoRaises).finalNames =
          docNames emptyDoc) :=
  ⟨by decide, C5_empty_guard emptyDoc (some "X") sampleNoRaises (by decide)⟩

/-- C6: when the prompt is cancelled (None) or yields an empty string, the
run opens no transaction, mutates nothing, shows exactly one alert (the
cancellation notification) and exits. -/
theorem C6_cancellation (doc : Document) (p : Option String)
    (raises : Nat → Option String) (hne : framingElevationViews doc ≠ [])
    (hp : p = none ∨ p = some "") :
    (runScript doc p raises).events =
        [Event.promptShown, Event.alert cancelledMsg "Cancelled",
         Event.exitScript] ∧
      (∀ e ∈ (runScript doc p raises).events, isTxEvent e = false) ∧
      alertCount (runScript doc p raises).events = 1 ∧
      (runScript doc p raises).finalNames = docNames doc := by
  rw [runScript_cancelled doc p raises hne hp]
  refine ⟨rfl, ?_, rfl, rfl⟩
  intro e he
  simp only [List.mem_cons, List.not_mem_nil, or_false] at he
  rcases he with rfl | rfl | rfl <;> rfl

theorem C6_cancellation_witness :
    framingElevationViews sampleDoc ≠ [] ∧
      ((runScript sampleDoc none sampleNoRaises).events =
          [Event.promptShown, Event.alert cancelledMsg "Cancelled",
           Event.exitScript] ∧
        (∀ e ∈ (runScript sampleDoc none sampleNoRaises).events,
          isTxEvent e = false) ∧
        alertCount (runScript sampleDoc none sampleNoRaises).events = 1 ∧
        (runScript sampleDoc none sampleNoRaises).finalNames =
          docNames sampleDoc) :=
  ⟨by decide,
   C6_cancellation sampleDoc none sampleNoRaises (by decide) (Or.inl rfl)⟩

/-- C7: discovery is read-only (the document state it threads through every
host read comes back unchanged) and deterministic: running it again on the
resulting document yields the identical mapping, which is the pure
discovery result. -/
theorem C7_discovery_readonly_idempotent (doc : Document) :
    (discoverM doc).2 = doc ∧
      (discoverM ((discoverM doc).2)).1 = (discoverM doc).1 ∧
      (discoverM doc).1 = framingElevationViews doc := by
  simp [discoverM_eq]

/-- C1: if the rename of the j-th discovered view raises inside its
sub-transaction (after all earlier renames succeeded), then after the run
no rename is observable (the whole grouping transaction was rolled back),
exactly one alert was shown and it is the error notification naming the
failing view, no Process Complete report appears, and the run ends with
script.exit. -/
theorem C1_failure_atomicity (doc : Document) (base err : String)
    (raises : Nat → Option String) (j : Nat) (hbase : base ≠ "")
    (hj : j < (framingElevationViews doc).length)
    (hfirst : ∀ i, i < j → raises i = none) (hraise : raises j = some err) :
    (runScript doc (some base) raises).finalNames = docNames doc ∧
      alertCount (runScript doc (some base) raises).events = 1 ∧
      Event.alert
          (failMsg (((framingElevationViews doc).get ⟨j, hj⟩).2.name) err)
          "Error" ∈ (runScript doc (some base) raises).events ∧
      (∀ msg, Event.alert msg "Process Complete" ∉
          (runScript doc (some base) raises).events) ∧
      ∃ pre, (runScript doc (some base) raises).events =
          pre ++ [Event.exitScript] := by
  rw [runScript_failureAt doc base err raises j hbase hj hfirst hraise]
  refine ⟨rfl, ?_, ?_, ?_, ?_⟩
  · rw [alertCount_append, alertCount_append, alertCount_successEvents]
    rfl
  · simp
  · intro msg hmem
    simp only [List.mem_append, List.mem_cons, List.not_mem_nil, or_false]
      at hmem
    rcases hmem with (h | h) | h | h | h | h
    · rcases h with h | h <;> exact Event.noConfusion h
    · exact alert_not_mem_successEvents msg "Process Complete" j h
    · exact Event.noConfusion h
    · injection h with h1 h2
      exact absurd h2 (by decide)
    · exact Event.noConfusion h
    · exact Event.noConfusion h
  · refine ⟨[Event.promptShown, Event.txGroupStart] ++ successEvents j ++
      [Event.subTxStart,
       Event.alert
         (failMsg (((framingElevationViews doc).get ⟨j, hj⟩).2.name) err)
         "Error",
       Event.txGroupRollback], ?_⟩
    simp

theorem C1_failure_atomicity_witness :
    (("Old FE" : String) ≠ "" ∧
      1 < (framingElevationViews sampleDoc).length ∧
      (∀ i, i < 1 → sampleRaisesAt1 i = none) ∧
      sampleRaisesAt1 1 = some "boom") ∧
    ((runScript sampleDoc (some "Old FE") sampleRaisesAt1).finalNames =
        docNames sampleDoc ∧
      alertCount (runScript sampleDoc (some "Old FE") sampleRaisesAt1).events = 1 ∧
      Event.alert
          (failMsg (((framingElevationViews sampleDoc).get
            ⟨1, by decide⟩).2.name) "boom") "Error" ∈
          (runScript sampleDoc (some "Old FE") sampleRaisesAt1).events ∧
      (∀ msg, Event.alert msg "Process Complete" ∉
          (runScript sampleDoc (some "Old FE") sampleRaisesAt1).events) ∧
      ∃ pre, (runScript sampleDoc (some "Old FE") sampleRaisesAt1).events =
          pre ++ [Event.exitScript]) :=
  ⟨⟨by decide, by decide, by decide, by decide⟩,
   C1_failure_atomicity sampleDoc "Old FE" "boom" sampleRaisesAt1 1
     (by decide) (by decide) (by decide) (by decide)⟩

/-- C2: on a fully successful run with non-empty base name B and K
discovered views, the i-th discovered view (0-based) ends up named exactly
B - (i+1) — counters 1..K in discovery iteration order, decimal, no gaps —
and the resulting names are pairwise distinct (no repeats). -/
theorem C2_naming_sequence (doc : Document) (base : String)
    (raises : Nat → Option String) (hbase : base ≠ "")
    (hne : framingElevationViews doc ≠ [])
    (hall : ∀ i, i < (framingElevationViews doc).length → raises i = none) :
    (∀ i (hi : i < (framingElevationViews doc).length),
        (runScript doc (some base) raises).finalNames
            (((framingElevationViews doc).get ⟨i, hi⟩).1) =
          some (base ++ " - " ++ toString (i + 1))) ∧
      (∀ i j (hi : i < (framingElevationViews doc).length)
          (hj : j < (framingElevationViews doc).length), i ≠ j →
        (runScript doc (some base) raises).finalNames
            (((framingElevationViews doc).get ⟨i, hi⟩).1) ≠
          (runScript doc (some base) raises).finalNames
            (((framingElevationViews doc).get ⟨j, hj⟩).1)) := by
  have hrun := runScript_success doc base raises hne hbase hall
  have hmain : ∀ i (hi : i < (framingElevationViews doc).length),
      (runScript doc (some base) raises).finalNames
          (((framingElevationViews doc).get ⟨i, hi⟩).1) =
        some (base ++ " - " ++ toString (i + 1)) := by
    intro i hi
    rw [hrun]
    show applyRenames doc (expectedRenames base 1 (framingElevationViews doc))
        (((framingElevationViews doc).get ⟨i, hi⟩).1) = _
    rw [applyRenames]
    rw [lookupRename_expectedRenames base (framingElevationViews doc) 1 i hi
      (framingElevationViews_keys_nodup doc)]
    rw [Nat.add_comm 1 i]
  refine ⟨hmain, ?_⟩
  intro i j hi hj hij heq
  rw [hmain i hi, hmain j hj] at heq
  have h2 := generatedName_injective base (Option.some.inj heq)
  omega

theorem C2_naming_sequence_witness :
    (("Old FE" : String) ≠ "" ∧ framingElevationViews sampleDoc ≠ [] ∧
      (∀ i, i < (framingElevationViews sampleDoc).length →
        sampleNoRaises i = none)) ∧
    ((∀ i (hi : i < (framingElevationViews sampleDoc).length),
        (runScript sampleDoc (some "Old FE") sampleNoRaises).finalNames
            (((framingElevationViews sampleDoc).get ⟨i, hi⟩).1) =
          some ("Old FE" ++ " - " ++ toString (i + 1))) ∧
      (∀ i j (hi : i < (framingElevationViews sampleDoc).length)
          (hj : j < (framingElevationViews sampleDoc).length), i ≠ j →
        (runScript sampleDoc (some "Old FE") sampleNoRaises).finalNames
            (((framingElevationViews sampleDoc).get ⟨i, hi⟩).1) ≠
          (runScript sampleDoc (some "Old FE") sampleNoRaises).finalNames
            (((framingElevationViews sampleDoc).get ⟨j, hj⟩).1))) :=
  ⟨⟨by decide, by decide, by decide⟩,
   C2_naming_sequence sampleDoc "Old FE" sampleNoRaises (by decide)
     (by decide) (by decide)⟩

/-- C8: every run — empty result, cancellation, mid-batch failure, or
completion — shows exactly one modal alert before the process ends. -/
theorem C8_exactly_one_alert (doc : Document) (p : Option String)
    (raises : Nat → Option String) :
    alertCount (runScript doc p raises).events = 1 := by
  by_cases hemp : framingElevationViews doc = []
  · rw [runScript_noViews doc p raises hemp]
    rfl
  · cases p with
    | none =>
        rw [runScript_cancelled doc none raises hemp (Or.inl rfl)]
        rfl
    | some base =>
        by_cases hb : base = ""
        · subst hb
          rw [runScript_cancelled doc (some "") raises hemp (Or.inr rfl)]
          rfl
        · by_cases hall : ∀ i, i < (framingElevationViews doc).length →
              raises i = none
          · rw [runScript_success doc base raises hemp hb hall]
            rw [alertCount_append, alertCount_append, alertCount_successEvents]
            rfl
          · obtain ⟨j, hj, hfirst, err, hraise⟩ :=
              exists_first_fail raises _ hall
            rw [runScript_failureAt doc base err raises j hb hj hfirst hraise]
            rw [alertCount_append, alertCount_append, alertCount_successEvents]
            rfl

/-- C9: the zero-renames branch of the final report is unreachable: no run
ever shows the No-views-were-renamed report, because the empty guard exits
before the loop and the completed loop has renamed every discovered view. -/
theorem C9_noneRenamed_unreachable (doc : Document) (p : Option String)
    (raises : Nat → Option String) :
    Event.alert noneRenamedMsg "Process Complete" ∉
      (runScript doc p raises).events := by
  by_cases hemp : framingElevationViews doc = []
  · rw [runScript_noViews doc p raises hemp]
    dsimp only
    decide
  · cases p with
    | none =>
        rw [runScript_cancelled doc none raises hemp (Or.inl rfl)]
        dsimp only
        decide
    | some base =>
        by_cases hb : base = ""
        · subst hb
          rw [runScript_cancelled doc (some "") raises hemp (Or.inr rfl)]
          dsimp only
          decide
        · by_cases hall : ∀ i, i < (framingElevationViews doc).length →
              raises i = none
          · rw [runScript_success doc base raises hemp hb hall]
            intro hmem
            simp only [List.mem_append, List.mem_cons, List.not_mem_nil,
              or_false] at hmem
            rcases hmem with (h | h) | h | h
            · rcases h with h | h <;> exact Event.noConfusion h
            · exact alert_not_mem_successEvents noneRenamedMsg
                "Process Complete" _ h
            · exact Event.noConfusion h
            · injection h with h1 h2
              exact successMsg_ne_noneRenamedMsg _ h1.symm
          · obtain ⟨j, hj, hfirst, err, hraise⟩ :=
              exists_first_fail raises _ hall
            rw [runScript_failureAt doc base err raises j hb hj hfirst hraise]
            intro hmem
            simp only [List.mem_append, List.mem_cons, List.not_mem_nil,
              or_false] at hmem
            rcases hmem with (h | h) | h | h | h | h
            · rcases h with h | h <;> exact Event.noConfusion h
            · exact alert_not_mem_successEvents noneRenamedMsg
                "Process Complete" j h
            · exact Event.noConfusion h
            · injection h with h1 h2
              exact absurd h2 (by decide)
            · exact Event.noConfusion h
            · exact Event.noConfusion h

/-- C10: the loop maintains counter = renamed_count + 1 (both advance only
together, on a successful rename), and a completed run has renamed exactly
the number of discovered views, which is the count in the success report. -/
theorem C10_counter_invariant (doc : Document) (base : String)
    (raises : Nat → Option String) (hbase : base ≠ "")
    (hne : framingElevationViews doc ≠ [])
    (hall : ∀ i, i < (framingElevationViews doc).length → raises i = none) :
    (∀ (vs : List (Int × View)) (idx : Nat) (st : LoopResult),
        st.counter = st.renamedCount + 1 →
        (renameLoop raises base vs idx st).counter =
          (renameLoop raises base vs idx st).renamedCount + 1) ∧
      (runScript doc (some base) raises).renamedCount =
        (framingElevationViews doc).length ∧
      (runScript doc (some base) raises).counter =
        (runScript doc (some base) raises).renamedCount + 1 ∧
      Event.alert
          (successMsg ((runScript doc (some base) raises).renamedCount))
          "Process Complete" ∈ (runScript doc (some base) raises).events := by
  refine ⟨fun vs idx st h => renameLoop_counter_inv raises base vs idx st h,
    ?_, ?_, ?_⟩
  · rw [runScript_success doc base raises hne hbase hall]
  · rw [runScript_success doc base raises hne hbase hall]
    show 1 + (framingElevationViews doc).length =
      (framingElevationViews doc).length + 1
    omega
  · rw [runScript_success doc base raises hne hbase hall]
    simp

theorem C10_counter_invariant_witness :
    (("Old FE" : String) ≠ "" ∧ framingElevationViews sampleDoc ≠ [] ∧
      (∀ i, i < (framingElevationViews sampleDoc).length →
        sampleNoRaises i = none)) ∧
    ((∀ (vs : List (Int × View)) (idx : Nat) (st : LoopResult),
        st.counter = st.renamedCount + 1 →
        (renameLoop sampleNoRaises "Old FE" vs idx st).counter =
          (renameLoop sampleNoRaises "Old FE" vs idx st).renamedCount + 1) ∧
      (runScript sampleDoc (some "Old FE") sampleNoRaises).renamedCount =
        (framingElevationViews sampleDoc).length ∧
      (runScript sampleDoc (some "Old FE") sampleNoRaises).counter =
        (runScript sampleDoc (some "Old FE") sampleNoRaises).renamedCount + 1 ∧
      Event.alert
          (successMsg
            ((runScript sampleDoc (some "Old FE") sampleNoRaises).renamedCount))
          "Process Complete" ∈
        (runScript sampleDoc (some "Old FE") sampleNoRaises).events) :=
  ⟨⟨by decide, by decide, by decide⟩,
   C10_counter_invariant sampleDoc "Old FE" sampleNoRaises (by decide)
     (by decide) (by decide)⟩

end ViewRename
